import Mathlib

/-!
# icbridge: packet dispatch and transaction relay

A shallow embedding of `main.go` of the ICB/Matrix bridge: the table of packet
handlers installed in `c.Handlers`, and the HTTP handler registered for
`/transactions/`.  Everything the program does to the outside world is recorded
as a list of `Effect`s, in the order the Go statements perform them; a Go
run-time panic is recorded as a `Panic` value.
-/

namespace Icbridge

/-! ## Observable behaviour -/

/-- One action of the program that is visible outside of it. -/
inductive Effect where
  /-- A call `c.Write(fields)` on the ICB client. -/
  | write (fields : List String)
  /-- A call to the standard logger (`log.Printf`, `log.Println`); `msg` is the
  formatted message handed to the logger, which puts its date and time header
  in front of it. -/
  | log (msg : String)
  /-- Text written to standard output (`fmt.Printf`, `fmt.Println`). -/
  | print (text : String)
  deriving DecidableEq, Repr

/-- The Go run-time panics the modelled code can raise. -/
inductive Panic where
  /-- An index expression `s[i]` with `i ≥ len(s)`. -/
  | indexOutOfRange (index len : Nat)
  /-- A slice expression `s[low:]` with `low > len(s)`. -/
  | sliceBounds (low len : Nat)
  /-- A failed type assertion `x.(string)`. -/
  | interfaceConversion
  deriving DecidableEq, Repr

/-- The fields of the `write` effects of a trace, in order. -/
def writes : List Effect → List (List String)
  | [] => []
  | Effect.write fields :: rest => fields :: writes rest
  | _ :: rest => writes rest

/-- The messages of the `log` effects of a trace, in order. -/
def logs : List Effect → List String
  | [] => []
  | Effect.log msg :: rest => msg :: logs rest
  | _ :: rest => logs rest

/-! ## Go library functions used by `main.go` -/

/-- Go's `strings.Join(elems, sep)`: nothing for no element, the element itself
for one, otherwise the first element followed by `sep` and the next element for
each further one. -/
def Join : List String → String → String
  | [], _ => ""
  | a :: rest, sep => rest.foldl (fun acc s => acc ++ sep ++ s) a

/-- Go's `strings.HasPrefix(s, pre)`. -/
def HasPrefix (s pre : String) : Bool :=
  pre.data.isPrefixOf s.data

/-- Go's `fmt.Sprintln` on string operands: the operands separated by one
space, then a newline.  `fmt.Println` writes this text to standard output and
`log.Println` hands it to the logger. -/
def Sprintln (operands : List String) : String :=
  Join operands " " ++ "\n"

/-- The Go index expression `s[i]` on a slice of strings. -/
def index (s : List String) (i : Nat) : Except Panic String :=
  match s.get? i with
  | some x => .ok x
  | none => .error (.indexOutOfRange i s.length)

/-- The Go slice expression `s[low:]` on a slice of strings. -/
def sliceFrom (s : List String) (low : Nat) : Except Panic (List String) :=
  if low ≤ s.length then .ok (s.drop low) else .error (.sliceBounds low s.length)

/-! ## The packet handlers (`c.Handlers`, main.go lines 123-153) -/

/-- A packet handler `func(s []string, c *icb.Client)`: the effects it has on
the console and on the client `c`, or the panic it raises.  Every handler of
the table evaluates the operands of its one output call before that call, so a
handler that panics has had no effect.  Among the operands, a call such as
`strings.Join(s[2:], " ")` is evaluated before a plain index expression such
as `s[1]`: Go orders the calls of a statement and leaves the place of an index
expression among them open, and the compiled program runs the call first. -/
abbrev Handler := List String → Except Panic (List Effect)

/-- Handler `"a"`: the empty function. -/
def handlerA : Handler := fun _ => pure []

/-- Handler `"b"`: `log.Printf("%s> %s", s[1], strings.Join(s[2:], " "))`.
The slice expression `s[2:]` of the call to `strings.Join` is evaluated first,
the index expression `s[1]` after it. -/
def handlerB : Handler := fun s => do
  let words ← sliceFrom s 2
  let sender ← index s 1
  pure [Effect.log (sender ++ "> " ++ Join words " ")]

/-- Handler `"c"`:
`fmt.Printf("private msg from: %s> %s\n", s[1], strings.Join(s[2:], " "))`.
As in handler `"b"`, the slice expression `s[2:]` is evaluated first. -/
def handlerC : Handler := fun s => do
  let words ← sliceFrom s 2
  let sender ← index s 1
  pure [Effect.print ("private msg from: " ++ sender ++ "> " ++ Join words " " ++ "\n")]

/-- Handler `"d"`: `fmt.Println("->", strings.Join(s[1:], " "))`. -/
def handlerD : Handler := fun s => do
  let words ← sliceFrom s 1
  pure [Effect.print (Sprintln ["->", Join words " "])]

/-- Handler `"e"`: `fmt.Println("ERROR>", strings.Join(s[1:], " "))`. -/
def handlerE : Handler := fun s => do
  let words ← sliceFrom s 1
  pure [Effect.print (Sprintln ["ERROR>", Join words " "])]

/-- Handler `"j"`: `fmt.Printf("-> Connected to %s (%s)\n", s[2], s[3])`. -/
def handlerJ : Handler := fun s => do
  let group ← index s 2
  let topic ← index s 3
  pure [Effect.print ("-> Connected to " ++ group ++ " (" ++ topic ++ ")\n")]

/-- Handler `"k"`: `fmt.Println("-> BEEP")`. -/
def handlerK : Handler := fun _ => pure [Effect.print (Sprintln ["-> BEEP"])]

/-- Handler `"l"`: `c.Write([]string{"m"})`, the result of the write dropped. -/
def handlerL : Handler := fun _ => pure [Effect.write ["m"]]

/-- Handler `"n"`: the empty function. -/
def handlerN : Handler := fun _ => pure []

/-- The map literal assigned to `c.Handlers`. -/
def Handlers : List (String × Handler) :=
  [("a", handlerA), ("b", handlerB), ("c", handlerC), ("d", handlerD), ("e", handlerE),
   ("j", handlerJ), ("k", handlerK), ("l", handlerL), ("n", handlerN)]

/-- A decoded packet: its command code, which is field 0, and the fields after
it. -/
structure Packet where
  code : String
  rest : List String
  deriving DecidableEq, Repr

/-- All fields of a packet, the command code first: the slice the handlers
receive. -/
def Packet.fields (p : Packet) : List String := p.code :: p.rest

/-- What one run of a piece of the program did: its effects in order, and the
panic that ended it, if one did. -/
abbrev Run := List Effect × Option Panic

/-- Modelled from the spec: `RunHandlers` of the ICB client library, which is
not part of this repository.  Section 4.1: look up the packet's command code in
the mapping of code to reaction and invoke the reaction if present; absence of
a mapped reaction is not an error, it is silently ignored. -/
def RunHandlers (p : Packet) : Run :=
  match Handlers.lookup p.code with
  | none => ([], none)
  | some h =>
    match h p.fields with
    | .ok effects => (effects, none)
    | .error e => ([], some e)

/-! ## The transaction handler (main.go lines 178-196) -/

/-- A value of Go type `interface{}` as `json.Unmarshal` produces it: nil for
JSON null, a bool, a number, a string, a slice or a map.  The handler only asks
whether a value is a string, so the payload of a number stands for it without
its float64 representation. -/
inductive Value where
  | null
  | bool (b : Bool)
  | number (n : Int)
  | string (s : String)
  | array (xs : List Value)
  | object (kvs : List (String × Value))

/-- The type `Content`, a `map[string]interface{}`, as its key/value pairs;
the value of a key is that of its first pair. -/
abbrev Content := List (String × Value)

/-- The struct `Event`. -/
structure Event where
  EventID : String
  EventType : String
  Content : Content
  RoomID : String
  UserID : String

/-- The map index expression `m[key]`: the value stored under the key, or the
nil interface (`none`) when there is none. -/
def Content.at (m : Content) (key : String) : Option Value :=
  m.lookup key

/-- The type assertion `x.(string)`. -/
def assertString : Option Value → Except Panic String
  | some (Value.string s) => .ok s
  | _ => .error .interfaceConversion

/-- The statement `if err != nil { log.Println(err) }`, where `err` is the
result of the write: `none` for nil, `some text` for an error whose `Error()`
is `text`. -/
def logWriteError : Option String → List Effect
  | none => []
  | some text => [Effect.log (Sprintln [text])]

/-- The function registered for `/transactions/`, from the decoded `Events`
on: the loop over `events.Events`.  `c.Write` belongs to the ICB client
library; a call of it is recorded as a `write` effect, and `link i` is the
result of the `i`-th call the loop makes, counted from 0.  A panic ends the
run after the effects that came before it. -/
def transactions (link : Nat → Option String) : List Event → Run
  | [] => ([], none)
  | e :: rest =>
    if HasPrefix e.UserID "@icb." then ([], none)
    else if e.EventType = "m.room.message" then
      match assertString (e.Content.at "body") with
      | .error p => ([], some p)
      | .ok body =>
        let r := transactions (fun i => link (i + 1)) rest
        (Effect.write ["b", body] :: (logWriteError (link 0) ++ r.1), r.2)
    else
      let r := transactions link rest
      (Effect.print (Sprintln [e.EventType, "unknown event type"]) :: r.1, r.2)

/-- The link on which every write succeeds. -/
def linkUp : Nat → Option String := fun _ => none

/-! ## Sample inputs -/

/-- A decoded event with the given type, content and sender, the other fields
left at their zero value, as `json.Unmarshal` leaves the fields the body does
not name. -/
def sampleEvent (type : String) (content : Content) (sender : String) : Event :=
  { EventID := "", EventType := type, Content := content, RoomID := "", UserID := sender }

/-- A message event with the given string body. -/
def sampleMessage (sender body : String) : Event :=
  sampleEvent "m.room.message" [("msgtype", Value.string "m.text"), ("body", Value.string body)]
    sender

/-- The link whose second write fails and whose other writes succeed. -/
def linkSecondFails : Nat → Option String :=
  fun i => if i = 1 then some "broken pipe" else none

/-! ## Reading traces -/

theorem writes_append (xs ys : List Effect) : writes (xs ++ ys) = writes xs ++ writes ys := by
  induction xs with
  | nil => rfl
  | cons x xs ih => cases x <;> simp [writes, ih]

theorem logs_append (xs ys : List Effect) : logs (xs ++ ys) = logs xs ++ logs ys := by
  induction xs with
  | nil => rfl
  | cons x xs ih => cases x <;> simp [logs, ih]

theorem writes_logWriteError (r : Option String) : writes (logWriteError r) = [] := by
  cases r <;> rfl

/-! ## The handler table, code by code -/

theorem lookup_other (code : String) (ha : code ≠ "a") (hb : code ≠ "b") (hc : code ≠ "c")
    (hd : code ≠ "d") (he : code ≠ "e") (hj : code ≠ "j") (hk : code ≠ "k") (hl : code ≠ "l")
    (hn : code ≠ "n") : Handlers.lookup code = none := by
  simp only [Handlers, List.lookup, beq_false_of_ne ha, beq_false_of_ne hb, beq_false_of_ne hc,
    beq_false_of_ne hd, beq_false_of_ne he, beq_false_of_ne hj, beq_false_of_ne hk,
    beq_false_of_ne hl, beq_false_of_ne hn]

theorem run_other (code : String) (rest : List String) (ha : code ≠ "a") (hb : code ≠ "b")
    (hc : code ≠ "c") (hd : code ≠ "d") (he : code ≠ "e") (hj : code ≠ "j") (hk : code ≠ "k")
    (hl : code ≠ "l") (hn : code ≠ "n") : RunHandlers ⟨code, rest⟩ = ([], none) := by
  simp [RunHandlers, lookup_other code ha hb hc hd he hj hk hl hn]

theorem run_a (rest : List String) : RunHandlers ⟨"a", rest⟩ = ([], none) := by rfl

theorem run_n (rest : List String) : RunHandlers ⟨"n", rest⟩ = ([], none) := by rfl

theorem run_k (rest : List String) :
    RunHandlers ⟨"k", rest⟩ = ([Effect.print "-> BEEP\n"], none) := by rfl

theorem run_l (rest : List String) :
    RunHandlers ⟨"l", rest⟩ = ([Effect.write ["m"]], none) := by rfl

theorem run_b_short : RunHandlers ⟨"b", []⟩ = ([], some (.sliceBounds 2 1)) := by rfl

theorem run_b (sender : String) (words : List String) :
    RunHandlers ⟨"b", sender :: words⟩
      = ([Effect.log (sender ++ "> " ++ Join words " ")], none) := by
  simp [RunHandlers, Handlers, List.lookup, handlerB, index, sliceFrom, Packet.fields, bind,
    Except.bind, pure, Except.pure]

theorem run_c_short : RunHandlers ⟨"c", []⟩ = ([], some (.sliceBounds 2 1)) := by rfl

theorem run_c (sender : String) (words : List String) :
    RunHandlers ⟨"c", sender :: words⟩
      = ([Effect.print ("private msg from: " ++ sender ++ "> " ++ Join words " " ++ "\n")],
          none) := by
  simp [RunHandlers, Handlers, List.lookup, handlerC, index, sliceFrom, Packet.fields, bind,
    Except.bind, pure, Except.pure]

theorem run_d (rest : List String) :
    RunHandlers ⟨"d", rest⟩ = ([Effect.print ("-> " ++ Join rest " " ++ "\n")], none) := by
  simp [RunHandlers, Handlers, List.lookup, handlerD, sliceFrom, Packet.fields, bind,
    Except.bind, pure, Except.pure, Sprintln, Join]

theorem run_e (rest : List String) :
    RunHandlers ⟨"e", rest⟩ = ([Effect.print ("ERROR> " ++ Join rest " " ++ "\n")], none) := by
  simp [RunHandlers, Handlers, List.lookup, handlerE, sliceFrom, Packet.fields, bind,
    Except.bind, pure, Except.pure, Sprintln, Join]

theorem run_j (x group topic : String) (more : List String) :
    RunHandlers ⟨"j", x :: group :: topic :: more⟩
      = ([Effect.print ("-> Connected to " ++ group ++ " (" ++ topic ++ ")\n")], none) := by
  rfl

/-- Every write of a dispatch is the ping reply of code `l`. -/
theorem writes_run (code : String) (rest : List String) :
    writes (RunHandlers ⟨code, rest⟩).1 = if code = "l" then [["m"]] else [] := by
  by_cases hl : code = "l"
  · subst hl; rfl
  by_cases ha : code = "a"
  · subst ha; rfl
  by_cases hn : code = "n"
  · subst hn; rfl
  by_cases hk : code = "k"
  · subst hk; rfl
  by_cases hd : code = "d"
  · subst hd; rw [run_d]; rfl
  by_cases he : code = "e"
  · subst he; rw [run_e]; rfl
  by_cases hb : code = "b"
  · subst hb
    cases rest with
    | nil => rfl
    | cons x xs => rw [run_b]; rfl
  by_cases hc : code = "c"
  · subst hc
    cases rest with
    | nil => rfl
    | cons x xs => rw [run_c]; rfl
  by_cases hj : code = "j"
  · subst hj
    match rest with
    | [] => rfl
    | [_] => rfl
    | [_, _] => rfl
    | _ :: _ :: _ :: _ => rfl
  rw [run_other code rest ha hb hc hd he hj hk hl hn, if_neg hl]; rfl

/-- A dispatch ends without a panic exactly when the packet is long enough
for the index expressions of its handler. -/
theorem run_ok_iff (code : String) (rest : List String) :
    (RunHandlers ⟨code, rest⟩).2 = none
      ↔ ((code = "b" ∨ code = "c") → 1 ≤ rest.length) ∧ (code = "j" → 3 ≤ rest.length) := by
  by_cases hb : code = "b"
  · subst hb
    cases rest with
    | nil => simp [run_b_short]
    | cons x xs => simp [run_b]
  by_cases hc : code = "c"
  · subst hc
    cases rest with
    | nil => simp [run_c_short]
    | cons x xs => simp [run_c]
  by_cases hj : code = "j"
  · subst hj
    match rest with
    | [] =>
      simp [RunHandlers, Handlers, List.lookup, handlerJ, index, Packet.fields, bind,
        Except.bind]
    | [_] =>
      simp [RunHandlers, Handlers, List.lookup, handlerJ, index, Packet.fields, bind,
        Except.bind]
    | [_, _] =>
      simp [RunHandlers, Handlers, List.lookup, handlerJ, index, Packet.fields, bind,
        Except.bind]
    | _ :: _ :: _ :: _ => simp [run_j]
  have hrhs : ((code = "b" ∨ code = "c") → 1 ≤ rest.length) ∧ (code = "j" → 3 ≤ rest.length) :=
    ⟨fun h => (h.elim hb hc).elim, fun h => (hj h).elim⟩
  refine iff_of_true ?_ hrhs
  by_cases hl : code = "l"
  · subst hl; rfl
  by_cases ha : code = "a"
  · subst ha; rfl
  by_cases hn : code = "n"
  · subst hn; rfl
  by_cases hk : code = "k"
  · subst hk; rfl
  by_cases hd : code = "d"
  · subst hd; rw [run_d]
  by_cases he : code = "e"
  · subst he; rw [run_e]
  rw [run_other code rest ha hb hc hd he hj hk hl hn]

/-! ## The transaction loop, event by event -/

theorem logs_logWriteError (r : Option String) :
    logs (logWriteError r) = (r.map (fun text => text ++ "\n")).toList := by
  cases r <;> rfl

theorem transactions_bridge (link : Nat → Option String) (e : Event) (rest : List Event)
    (hs : HasPrefix e.UserID "@icb." = true) : transactions link (e :: rest) = ([], none) := by
  simp [transactions, hs]

theorem transactions_message (link : Nat → Option String) (e : Event) (rest : List Event)
    (body : String) (hs : HasPrefix e.UserID "@icb." = false)
    (ht : e.EventType = "m.room.message") (hb : e.Content.at "body" = some (Value.string body)) :
    transactions link (e :: rest)
      = (Effect.write ["b", body]
          :: (logWriteError (link 0) ++ (transactions (fun i => link (i + 1)) rest).1),
         (transactions (fun i => link (i + 1)) rest).2) := by
  simp [transactions, hs, ht, hb, assertString]

theorem assertString_error (v : Option Value) (hv : ∀ s, v ≠ some (Value.string s)) :
    assertString v = .error .interfaceConversion := by
  unfold assertString
  split
  · next s => exact absurd rfl (hv s)
  · rfl

theorem transactions_badbody (link : Nat → Option String) (e : Event) (rest : List Event)
    (hs : HasPrefix e.UserID "@icb." = false) (ht : e.EventType = "m.room.message")
    (hb : ∀ s, e.Content.at "body" ≠ some (Value.string s)) :
    transactions link (e :: rest) = ([], some .interfaceConversion) := by
  simp [transactions, hs, ht, assertString_error _ hb]

theorem transactions_other (link : Nat → Option String) (e : Event) (rest : List Event)
    (hs : HasPrefix e.UserID "@icb." = false) (ht : e.EventType ≠ "m.room.message") :
    transactions link (e :: rest)
      = (Effect.print (e.EventType ++ " unknown event type\n") :: (transactions link rest).1,
         (transactions link rest).2) := by
  simp [transactions, hs, ht, Sprintln, Join, String.append_assoc]

/-- A value is a string or it is not. -/
theorem string_or_not (v : Option Value) :
    (∃ s, v = some (Value.string s)) ∨ ∀ s, v ≠ some (Value.string s) := by
  rcases v with _ | v
  · exact Or.inr (fun s h => by cases h)
  · cases v
    case string s => exact Or.inl ⟨s, rfl⟩
    all_goals exact Or.inr (fun s h => by cases h)

/-- The trace of a batch of relayable events: each event is one write,
followed by the log entry of that write when it failed. -/
theorem relay_trace (batch : List Event) (bodies : List String)
    (h : List.Forall₂ (fun e body => e.EventType = "m.room.message"
      ∧ e.Content.at "body" = some (Value.string body)
      ∧ HasPrefix e.UserID "@icb." = false) batch bodies) :
    ∀ link : Nat → Option String, transactions link batch
      = ((List.zipWith (fun body i => Effect.write ["b", body] :: logWriteError (link i))
          bodies (List.range bodies.length)).flatten, none) := by
  induction h with
  | nil => intro link; rfl
  | @cons e body es bs he _ ih =>
    intro link
    rw [transactions_message link e es body he.2.2 he.1 he.2.1, ih (fun i => link (i + 1))]
    simp [List.range_succ_eq_map, List.zipWith_map_right]

/-- An event sent by the bridge ends the run: the batch behaves as the batch
cut before that event, whatever stands before it. -/
theorem transactions_stop (pre : List Event) (e : Event) (post : List Event)
    (he : HasPrefix e.UserID "@icb." = true) :
    ∀ link : Nat → Option String, transactions link (pre ++ e :: post) = transactions link pre := by
  induction pre with
  | nil => intro link; rw [List.nil_append, transactions_bridge link e post he]; rfl
  | cons x pre ih =>
    intro link
    rw [List.cons_append]
    by_cases hs : HasPrefix x.UserID "@icb." = true
    · rw [transactions_bridge link x _ hs, transactions_bridge link x _ hs]
    · have hs : HasPrefix x.UserID "@icb." = false := by simpa using hs
      by_cases ht : x.EventType = "m.room.message"
      · rcases string_or_not (x.Content.at "body") with ⟨body, hb⟩ | hb
        · rw [transactions_message link x _ body hs ht hb,
            transactions_message link x _ body hs ht hb, ih]
        · rw [transactions_badbody link x _ hs ht hb, transactions_badbody link x _ hs ht hb]
      · rw [transactions_other link x _ hs ht, transactions_other link x _ hs ht, ih]

/-- A run over `pre ++ post` in which `pre` is handled to its end goes on with
`post`, on the link as the writes of `pre` have left it. -/
theorem transactions_append (pre post : List Event) :
    ∀ link : Nat → Option String, (∀ x ∈ pre, HasPrefix x.UserID "@icb." = false) →
      (transactions link pre).2 = none →
      transactions link (pre ++ post)
        = ((transactions link pre).1
            ++ (transactions (fun i => link (i + (writes (transactions link pre).1).length)) post).1,
           (transactions (fun i => link (i + (writes (transactions link pre).1).length)) post).2) := by
  induction pre with
  | nil => intro link _ _; simp [transactions, writes]
  | cons x pre ih =>
    intro link hpre hok
    have hs : HasPrefix x.UserID "@icb." = false := hpre x (List.mem_cons_self _ _)
    have hpre2 : ∀ y ∈ pre, HasPrefix y.UserID "@icb." = false :=
      fun y hy => hpre y (List.mem_cons_of_mem _ hy)
    rw [List.cons_append]
    by_cases ht : x.EventType = "m.room.message"
    · rcases string_or_not (x.Content.at "body") with ⟨body, hb⟩ | hb
      · rw [transactions_message link x _ body hs ht hb] at hok ⊢
        rw [transactions_message link x _ body hs ht hb]
        rw [ih (fun i => link (i + 1)) hpre2 hok]
        have hlen : (writes (Effect.write ["b", body] :: (logWriteError (link 0)
            ++ (transactions (fun i => link (i + 1)) pre).1))).length
            = (writes (transactions (fun i => link (i + 1)) pre).1).length + 1 := by
          simp [writes, writes_append, writes_logWriteError]
        simp only [hlen, Nat.add_assoc, List.cons_append, List.append_assoc]
      · rw [transactions_badbody link x _ hs ht hb] at hok
        cases hok
    · rw [transactions_other link x _ hs ht] at hok ⊢
      rw [transactions_other link x _ hs ht, ih link hpre2 hok]
      simp [writes]

/-- The writes of a batch of relayable events. -/
theorem relay_writes (batch : List Event) (bodies : List String)
    (h : List.Forall₂ (fun e body => e.EventType = "m.room.message"
      ∧ e.Content.at "body" = some (Value.string body)
      ∧ HasPrefix e.UserID "@icb." = false) batch bodies) :
    ∀ link : Nat → Option String,
      writes (transactions link batch).1 = bodies.map (fun body => ["b", body]) := by
  induction h with
  | nil => intro link; rfl
  | @cons e body es bs he _ ih =>
    intro link
    rw [transactions_message link e es body he.2.2 he.1 he.2.1]
    simp [writes, writes_append, writes_logWriteError, ih]

/-- The log entries of a batch of relayable events: the errors of the writes
that failed, in order. -/
theorem relay_logs (batch : List Event) (bodies : List String)
    (h : List.Forall₂ (fun e body => e.EventType = "m.room.message"
      ∧ e.Content.at "body" = some (Value.string body)
      ∧ HasPrefix e.UserID "@icb." = false) batch bodies) :
    ∀ link : Nat → Option String, logs (transactions link batch).1
      = ((List.range batch.length).filterMap link).map (fun text => text ++ "\n") := by
  induction h with
  | nil => intro link; rfl
  | @cons e body es bs he _ ih =>
    intro link
    rw [transactions_message link e es body he.2.2 he.1 he.2.1]
    simp only [logs, logs_append, logs_logWriteError, ih, List.length_cons,
      List.range_succ_eq_map, List.filterMap_cons, List.filterMap_map]
    cases link 0 <;> simp [Function.comp_def]

/-! ## The claims -/

/-- C1. A batch in which every event has type `m.room.message`, a string
`body` and a sender without the prefix `@icb.` is relayed as the writes
`["b", body]`, one for each event, in the order of the batch, the body
unchanged; this holds whatever the writes return. -/
theorem relay_in_batch_order (link : Nat → Option String) (batch : List Event)
    (bodies : List String)
    (h : List.Forall₂ (fun e body => e.EventType = "m.room.message"
      ∧ e.Content.at "body" = some (Value.string body)
      ∧ HasPrefix e.UserID "@icb." = false) batch bodies) :
    writes (transactions link batch).1 = bodies.map (fun body => ["b", body])
      ∧ (writes (transactions link batch).1).length = batch.length := by
  have key := relay_writes batch bodies h
  refine ⟨key link, ?_⟩
  rw [key link, List.length_map, h.length_eq]

/-- A batch of two message events, the first body with blanks a trimming
relay would lose; the second write fails. -/
theorem relay_in_batch_order_witness :
    writes (transactions linkSecondFails
        [sampleMessage "@alice:example.org" "  hello  world ",
         sampleMessage "@bob:example.org" ""]).1
      = [["b", "  hello  world "], ["b", ""]]
    ∧ (writes (transactions linkSecondFails
        [sampleMessage "@alice:example.org" "  hello  world ",
         sampleMessage "@bob:example.org" ""]).1).length = 2 :=
  relay_in_batch_order linkSecondFails
    [sampleMessage "@alice:example.org" "  hello  world ", sampleMessage "@bob:example.org" ""]
    ["  hello  world ", ""]
    (List.Forall₂.cons ⟨rfl, rfl, by decide⟩
      (List.Forall₂.cons ⟨rfl, rfl, by decide⟩ List.Forall₂.nil))

/-- C2. Every write of the transaction handler comes from an event whose
sender does not start with `@icb.`: the writes of a batch are the writes
`["b", body]` of a sublist of the batch, all of whose events are message
events with that string body and a sender without the prefix.  No event with
the prefix is among them. -/
theorem echo_suppression (link : Nat → Option String) (batch : List Event) :
    ∃ (sources : List Event) (bodies : List String),
      sources.Sublist (batch.filter (fun e => !HasPrefix e.UserID "@icb."))
      ∧ (∀ e ∈ sources, e ∈ batch ∧ HasPrefix e.UserID "@icb." = false)
      ∧ List.Forall₂ (fun e body => e.EventType = "m.room.message"
          ∧ e.Content.at "body" = some (Value.string body)) sources bodies
      ∧ writes (transactions link batch).1 = bodies.map (fun body => ["b", body]) := by
  have key : ∀ link : Nat → Option String, ∃ (sources : List Event) (bodies : List String),
      sources.Sublist (batch.filter (fun e => !HasPrefix e.UserID "@icb."))
      ∧ List.Forall₂ (fun e body => e.EventType = "m.room.message"
          ∧ e.Content.at "body" = some (Value.string body)) sources bodies
      ∧ writes (transactions link batch).1 = bodies.map (fun body => ["b", body]) := by
    induction batch with
    | nil => intro link; exact ⟨[], [], List.Sublist.slnil, List.Forall₂.nil, rfl⟩
    | cons x rest ih =>
      intro link
      by_cases hs : HasPrefix x.UserID "@icb." = true
      · refine ⟨[], [], List.nil_sublist _, List.Forall₂.nil, ?_⟩
        rw [transactions_bridge link x rest hs]; rfl
      · have hs : HasPrefix x.UserID "@icb." = false := by simpa using hs
        by_cases ht : x.EventType = "m.room.message"
        · rcases string_or_not (x.Content.at "body") with ⟨body, hb⟩ | hb
          · obtain ⟨sources, bodies, hsub, hall, hw⟩ := ih (fun i => link (i + 1))
            refine ⟨x :: sources, body :: bodies, ?_, List.Forall₂.cons ⟨ht, hb⟩ hall, ?_⟩
            · rw [List.filter_cons_of_pos (by simp [hs])]
              exact hsub.cons₂ x
            · rw [transactions_message link x rest body hs ht hb]
              simp [writes, writes_append, writes_logWriteError, hw]
          · refine ⟨[], [], List.nil_sublist _, List.Forall₂.nil, ?_⟩
            rw [transactions_badbody link x rest hs ht hb]; rfl
        · obtain ⟨sources, bodies, hsub, hall, hw⟩ := ih link
          refine ⟨sources, bodies, ?_, hall, ?_⟩
          · rw [List.filter_cons_of_pos (by simp [hs])]
            exact hsub.cons x
          · rw [transactions_other link x rest hs ht]
            simpa [writes] using hw
  obtain ⟨sources, bodies, hsub, hall, hw⟩ := key link
  refine ⟨sources, bodies, hsub, ?_, hall, hw⟩
  intro e he
  have hmem := List.mem_filter.mp (hsub.subset he)
  exact ⟨hmem.1, by simpa using hmem.2⟩

/-- C3. A batch with an event whose sender starts with `@icb.` is handled as
the batch cut just before the first such event: the same effects (writes, log
entries and printed lines) and the same end, so nothing at or after that event
is relayed or logged. -/
theorem batch_short_circuit (link : Nat → Option String) (pre : List Event) (e : Event)
    (post : List Event) (hpre : ∀ x ∈ pre, HasPrefix x.UserID "@icb." = false)
    (he : HasPrefix e.UserID "@icb." = true) :
    (pre ++ e :: post).takeWhile (fun x => !HasPrefix x.UserID "@icb.") = pre
      ∧ transactions link (pre ++ e :: post) = transactions link pre := by
  refine ⟨?_, transactions_stop pre e post he link⟩
  induction pre with
  | nil => simp [he]
  | cons x pre ih =>
    have hx : HasPrefix x.UserID "@icb." = false := hpre x (List.mem_cons_self _ _)
    rw [List.cons_append, List.takeWhile_cons_of_pos (by simp [hx]),
      ih (fun y hy => hpre y (List.mem_cons_of_mem _ hy))]

/-- A message, then an event of the bridge, then a message that is never
reached. -/
theorem batch_short_circuit_witness :
    ([sampleMessage "@alice:example.org" "one"]
        ++ sampleMessage "@icb.bob:example.org" "two"
          :: [sampleMessage "@carol:example.org" "three"]).takeWhile
          (fun x => !HasPrefix x.UserID "@icb.")
        = [sampleMessage "@alice:example.org" "one"]
    ∧ transactions linkUp
        ([sampleMessage "@alice:example.org" "one"]
          ++ sampleMessage "@icb.bob:example.org" "two"
            :: [sampleMessage "@carol:example.org" "three"])
        = transactions linkUp [sampleMessage "@alice:example.org" "one"] :=
  batch_short_circuit linkUp [sampleMessage "@alice:example.org" "one"]
    (sampleMessage "@icb.bob:example.org" "two") [sampleMessage "@carol:example.org" "three"]
    (by decide) (by decide)

/-- C4, as the claim states it, fails: the event of type `room.message` with
content `{"body": "hello"}` and sender `@alice:example.org` is not a message
for the handler, which compares the type with `m.room.message`; it is printed
as an unknown event type and nothing is written. -/
theorem scenario_room_message_not_relayed :
    transactions linkUp
        [sampleEvent "room.message" [("body", Value.string "hello")] "@alice:example.org"]
      = ([Effect.print "room.message unknown event type\n"], none)
    ∧ writes (transactions linkUp
        [sampleEvent "room.message" [("body", Value.string "hello")] "@alice:example.org"]).1
      ≠ [["b", "hello"]] := by
  decide

/-- C4, amended. The batch of the single event with type `m.room.message`,
content `{"body": "hello"}` and sender `@alice:example.org` results in exactly
one write, the open message `["b", "hello"]`, and the handler returns. -/
theorem scenario_m_room_message_relayed (link : Nat → Option String) :
    writes (transactions link
        [sampleEvent "m.room.message" [("body", Value.string "hello")] "@alice:example.org"]).1
      = [["b", "hello"]]
    ∧ (transactions link
        [sampleEvent "m.room.message" [("body", Value.string "hello")] "@alice:example.org"]).2
      = none := by
  rw [transactions_message link
    (sampleEvent "m.room.message" [("body", Value.string "hello")] "@alice:example.org") []
    "hello" (by decide) rfl rfl]
  simp [writes, writes_append, writes_logWriteError, transactions]

/-- C5, as the claim states it, fails: a `b` packet with one field makes its
handler, and so the dispatch, panic on the slice expression `s[2:]` (slice
bounds out of range [2:1]), and a `j` packet with three fields on the index
expression `s[3]` (index out of range [3] with length 3). -/
theorem dispatch_raises_on_short_packet :
    handlerB ["b"] = Except.error (Panic.sliceBounds 2 1)
    ∧ handlerJ ["j", "x", "y"] = Except.error (Panic.indexOutOfRange 3 3)
    ∧ RunHandlers ⟨"b", []⟩ = ([], some (Panic.sliceBounds 2 1))
    ∧ RunHandlers ⟨"j", ["x", "y"]⟩ = ([], some (Panic.indexOutOfRange 3 3)) :=
  ⟨rfl, rfl, by decide, by decide⟩

/-- C5, amended. Dispatch is defined on every packet, and it ends without a
panic exactly when the packet has the fields its handler uses: at least two
fields for the codes `b` and `c`, at least four for `j`, any number for every
other code; a code without a handler in the table is a no-op.  A `b` or `c`
packet with fewer than two fields panics with slice bounds out of range on
`s[2:]`, and a `j` packet with fewer than four fields with index out of range,
on `s[2]` when it has fewer than three fields and on `s[3]` when it has three;
a dispatch that panics has had no effect. -/
theorem dispatch_completes_iff (p : Packet) :
    ((RunHandlers p).2 = none
      ↔ ((p.code = "b" ∨ p.code = "c") → 2 ≤ p.fields.length)
        ∧ (p.code = "j" → 4 ≤ p.fields.length))
    ∧ (Handlers.lookup p.code = none → RunHandlers p = ([], none))
    ∧ ((p.code = "b" ∨ p.code = "c") → p.fields.length < 2 →
        RunHandlers p = ([], some (Panic.sliceBounds 2 p.fields.length)))
    ∧ (p.code = "j" → p.fields.length < 4 →
        RunHandlers p = ([], some (Panic.indexOutOfRange
          (if p.fields.length < 3 then 2 else 3) p.fields.length))) := by
  obtain ⟨code, rest⟩ := p
  refine ⟨?_, fun h => by simp [RunHandlers, h], ?_, ?_⟩
  · simp only [Packet.fields, List.length_cons]
    rw [run_ok_iff code rest]
    constructor
    · intro h
      exact ⟨fun hc => Nat.succ_le_succ (h.1 hc), fun hc => Nat.succ_le_succ (h.2 hc)⟩
    · intro h
      exact ⟨fun hc => Nat.le_of_succ_le_succ (h.1 hc),
        fun hc => Nat.le_of_succ_le_succ (h.2 hc)⟩
  · intro hc hlen
    cases rest with
    | nil =>
      rcases hc with hc | hc
      · cases hc; exact run_b_short
      · cases hc; exact run_c_short
    | cons x xs =>
      simp only [Packet.fields, List.length_cons] at hlen
      omega
  · intro hc hlen
    cases hc
    match rest, hlen with
    | [], _ => rfl
    | [_], _ => rfl
    | [_, _], _ => rfl
    | _ :: _ :: _ :: _, h =>
      simp only [Packet.fields, List.length_cons] at h
      omega

/-- Packets long enough for `b` and `j`, a one-field `c` packet with its
panic, a two-field `j` packet with its panic, and a code that has no
handler. -/
theorem dispatch_completes_iff_witness :
    (RunHandlers ⟨"b", ["bob"]⟩).2 = none
    ∧ (RunHandlers ⟨"j", ["x", "group", "topic"]⟩).2 = none
    ∧ (RunHandlers ⟨"c", []⟩).2 ≠ none
    ∧ RunHandlers ⟨"z", []⟩ = ([], none)
    ∧ RunHandlers ⟨"c", []⟩ = ([], some (Panic.sliceBounds 2 1))
    ∧ RunHandlers ⟨"j", ["x"]⟩ = ([], some (Panic.indexOutOfRange 2 2)) :=
  ⟨(dispatch_completes_iff ⟨"b", ["bob"]⟩).1.mpr (by decide),
   (dispatch_completes_iff ⟨"j", ["x", "group", "topic"]⟩).1.mpr (by decide),
   fun h => absurd (((dispatch_completes_iff ⟨"c", []⟩).1.mp h).1 (Or.inr rfl)) (by decide),
   (dispatch_completes_iff ⟨"z", []⟩).2.1 rfl,
   (dispatch_completes_iff ⟨"c", []⟩).2.2.1 (Or.inr rfl) (by decide),
   (dispatch_completes_iff ⟨"j", ["x"]⟩).2.2.2 rfl (by decide)⟩

/-- C6. A packet with code `l` makes dispatch issue exactly one write, the
ping reply `["m"]`, and nothing else; a packet with any other code makes
dispatch issue no write, and what it does is logged or printed. -/
theorem dispatch_writes (p : Packet) :
    (p.code = "l" → RunHandlers p = ([Effect.write ["m"]], none))
    ∧ (p.code ≠ "l" → writes (RunHandlers p).1 = []
        ∧ ∀ x ∈ (RunHandlers p).1, (∃ msg, x = Effect.log msg) ∨ ∃ text, x = Effect.print text) := by
  obtain ⟨code, rest⟩ := p
  refine ⟨fun h => ?_, fun h => ⟨?_, ?_⟩⟩
  · cases h; exact run_l rest
  · rw [writes_run, if_neg h]
  · have hw := writes_run code rest
    rw [if_neg h] at hw
    intro x hx
    cases x with
    | write fields =>
      exfalso
      have : ∀ t : List Effect, Effect.write fields ∈ t → writes t ≠ [] := by
        intro t ht
        induction t with
        | nil => cases ht
        | cons y t ih =>
          cases y with
          | write g => simp [writes]
          | log m =>
            rcases List.mem_cons.mp ht with h1 | h1
            · cases h1
            · simpa [writes] using ih h1
          | print m =>
            rcases List.mem_cons.mp ht with h1 | h1
            · cases h1
            · simpa [writes] using ih h1
      exact this _ hx hw
    | log msg => exact Or.inl ⟨msg, rfl⟩
    | print text => exact Or.inr ⟨text, rfl⟩

/-- A ping with two fields, and a beep. -/
theorem dispatch_writes_witness :
    RunHandlers ⟨"l", ["ping"]⟩ = ([Effect.write ["m"]], none)
    ∧ writes (RunHandlers ⟨"k", ["carol"]⟩).1 = [] :=
  ⟨(dispatch_writes ⟨"l", ["ping"]⟩).1 rfl, ((dispatch_writes ⟨"k", ["carol"]⟩).2 (by decide)).1⟩

/-- C7. For a packet with at least two fields, code `b` logs
`fields[1] ++ "> " ++` the fields from index 2 joined by one space, and code
`c` prints `"private msg from: "` followed by the same text; for every packet,
code `d` prints `"-> "` and code `e` prints `"ERROR> "` followed by the fields
from index 1 joined by one space.  The fields keep their order, a printed
line ends with a newline, and none of the four writes to the link.  The
fields `["b", "bob", "hi", "there"]` give the log entry `bob> hi there` and no
write. -/
theorem dispatch_formats :
    (∀ (p : Packet) (h : 1 < p.fields.length),
        (p.code = "b" → RunHandlers p
            = ([Effect.log (p.fields[1] ++ "> " ++ Join (p.fields.drop 2) " ")], none))
        ∧ (p.code = "c" → RunHandlers p
            = ([Effect.print ("private msg from: " ++ p.fields[1] ++ "> "
                  ++ Join (p.fields.drop 2) " " ++ "\n")], none)))
    ∧ (∀ p : Packet,
        (p.code = "d" → RunHandlers p
            = ([Effect.print ("-> " ++ Join (p.fields.drop 1) " " ++ "\n")], none))
        ∧ (p.code = "e" → RunHandlers p
            = ([Effect.print ("ERROR> " ++ Join (p.fields.drop 1) " " ++ "\n")], none)))
    ∧ RunHandlers ⟨"b", ["bob", "hi", "there"]⟩ = ([Effect.log "bob> hi there"], none)
    ∧ writes (RunHandlers ⟨"b", ["bob", "hi", "there"]⟩).1 = [] := by
  refine ⟨?_, ?_, by decide, by decide⟩
  · rintro ⟨code, rest⟩ h
    cases rest with
    | nil => simp [Packet.fields] at h
    | cons sender words =>
      refine ⟨fun hc => ?_, fun hc => ?_⟩
      · cases hc; exact run_b sender words
      · cases hc; exact run_c sender words
  · rintro ⟨code, rest⟩
    refine ⟨fun hc => ?_, fun hc => ?_⟩
    · cases hc; exact run_d rest
    · cases hc; exact run_e rest

/-- A private message, a status message and an error message. -/
theorem dispatch_formats_witness :
    RunHandlers ⟨"c", ["bob", "see", "you"]⟩
      = ([Effect.print "private msg from: bob> see you\n"], none)
    ∧ RunHandlers ⟨"d", ["Arrive", "carol", "entered", "group"]⟩
      = ([Effect.print "-> Arrive carol entered group\n"], none)
    ∧ RunHandlers ⟨"e", ["No", "such", "user"]⟩ = ([Effect.print "ERROR> No such user\n"], none) :=
  ⟨((dispatch_formats.1 ⟨"c", ["bob", "see", "you"]⟩ (by decide)).2 rfl),
   ((dispatch_formats.2.1 ⟨"d", ["Arrive", "carol", "entered", "group"]⟩).1 rfl),
   ((dispatch_formats.2.1 ⟨"e", ["No", "such", "user"]⟩).2 rfl)⟩

/-- C8. An event whose sender does not start with `@icb.` and whose type is
not `m.room.message` makes the handler print exactly one line, the event type
followed by `unknown event type`, and write nothing; the handler then goes on
with the rest of the batch, on the link as it was. -/
theorem unknown_event_type (link : Nat → Option String) (e : Event) (rest : List Event)
    (hs : HasPrefix e.UserID "@icb." = false) (ht : e.EventType ≠ "m.room.message") :
    transactions link [e] = ([Effect.print (e.EventType ++ " unknown event type\n")], none)
    ∧ writes (transactions link [e]).1 = []
    ∧ transactions link (e :: rest)
        = ((transactions link [e]).1 ++ (transactions link rest).1, (transactions link rest).2) := by
  have hone : transactions link [e]
      = ([Effect.print (e.EventType ++ " unknown event type\n")], none) := by
    rw [transactions_other link e [] hs ht]; rfl
  refine ⟨hone, ?_, ?_⟩
  · rw [hone]; rfl
  · rw [hone, transactions_other link e rest hs ht]; rfl

/-- A membership event in front of a message. -/
theorem unknown_event_type_witness :
    transactions linkUp [sampleEvent "m.room.member" [("membership", Value.string "join")]
        "@alice:example.org"]
      = ([Effect.print "m.room.member unknown event type\n"], none)
    ∧ transactions linkUp
        [sampleEvent "m.room.member" [("membership", Value.string "join")] "@alice:example.org",
         sampleMessage "@alice:example.org" "hi"]
      = ([Effect.print "m.room.member unknown event type\n", Effect.write ["b", "hi"]], none) := by
  have h := unknown_event_type linkUp
    (sampleEvent "m.room.member" [("membership", Value.string "join")] "@alice:example.org")
    [sampleMessage "@alice:example.org" "hi"] (by decide) (by decide)
  exact ⟨h.1, by rw [h.2.2]; decide⟩

/-- C9. On a batch of relayable message events the handler attempts the same
writes whatever each write returns, the writes it attempts when every write
succeeds; every failed write is followed by exactly one log entry, its error,
before the next event is handled; and the handler returns without a panic. -/
theorem write_failure_does_not_stop (link : Nat → Option String) (batch : List Event)
    (bodies : List String)
    (h : List.Forall₂ (fun e body => e.EventType = "m.room.message"
      ∧ e.Content.at "body" = some (Value.string body)
      ∧ HasPrefix e.UserID "@icb." = false) batch bodies) :
    writes (transactions link batch).1 = writes (transactions linkUp batch).1
    ∧ (transactions link batch).2 = none
    ∧ (transactions link batch).1
        = (List.zipWith (fun body i => Effect.write ["b", body] :: logWriteError (link i))
            bodies (List.range bodies.length)).flatten
    ∧ logs (transactions link batch).1
        = ((List.range batch.length).filterMap link).map (fun text => text ++ "\n") := by
  have hw := relay_writes batch bodies h
  refine ⟨by rw [hw link, hw linkUp], ?_, ?_, relay_logs batch bodies h link⟩
  · rw [relay_trace batch bodies h link]
  · rw [relay_trace batch bodies h link]

/-- Three messages on a link whose second write fails: three writes, one log
entry after the second. -/
theorem write_failure_does_not_stop_witness :
    transactions linkSecondFails
        [sampleMessage "@alice:example.org" "one", sampleMessage "@bob:example.org" "two",
         sampleMessage "@alice:example.org" "three"]
      = ([Effect.write ["b", "one"], Effect.write ["b", "two"], Effect.log "broken pipe\n",
          Effect.write ["b", "three"]], none) := by
  have h := write_failure_does_not_stop linkSecondFails
    [sampleMessage "@alice:example.org" "one", sampleMessage "@bob:example.org" "two",
     sampleMessage "@alice:example.org" "three"] ["one", "two", "three"]
    (List.Forall₂.cons ⟨rfl, rfl, by decide⟩ (List.Forall₂.cons ⟨rfl, rfl, by decide⟩
      (List.Forall₂.cons ⟨rfl, rfl, by decide⟩ List.Forall₂.nil)))
  exact Prod.ext (h.2.2.1.trans (by decide)) h.2.1

/-- C10. The handler returns without a panic if and only if every event of
type `m.room.message` before the first event of the bridge has a string under
`body` in its content.  A message event before that point whose `body` is not
a string makes the type assertion panic: the effects of the events before it
have taken place, and the events after it are not handled.  Batches with a
message without `body`, and with a `body` that is a number, show it. -/
theorem handler_safe_iff_bodies_are_strings :
    (∀ (link : Nat → Option String) (batch : List Event),
      (transactions link batch).2 = none
        ↔ ∀ e ∈ batch.takeWhile (fun x => !HasPrefix x.UserID "@icb."),
            e.EventType = "m.room.message" → ∃ s, e.Content.at "body" = some (Value.string s))
    ∧ (∀ (link : Nat → Option String) (pre : List Event) (e : Event) (post : List Event),
        (∀ x ∈ pre, HasPrefix x.UserID "@icb." = false) →
        (transactions link pre).2 = none →
        HasPrefix e.UserID "@icb." = false →
        e.EventType = "m.room.message" →
        (∀ s, e.Content.at "body" ≠ some (Value.string s)) →
        transactions link (pre ++ e :: post)
          = ((transactions link pre).1, some Panic.interfaceConversion))
    ∧ transactions linkUp
        [sampleMessage "@alice:example.org" "one",
         sampleEvent "m.room.message" [("msgtype", Value.string "m.text")] "@bob:example.org",
         sampleMessage "@alice:example.org" "three"]
      = ([Effect.write ["b", "one"]], some Panic.interfaceConversion)
    ∧ transactions linkUp
        [sampleMessage "@alice:example.org" "one",
         sampleEvent "m.room.message" [("body", Value.number 7)] "@bob:example.org",
         sampleMessage "@alice:example.org" "three"]
      = ([Effect.write ["b", "one"]], some Panic.interfaceConversion) := by
  refine ⟨?_, ?_, by decide, by decide⟩
  · intro link batch
    induction batch generalizing link with
    | nil => simp [transactions]
    | cons x rest ih =>
      by_cases hs : HasPrefix x.UserID "@icb." = true
      · rw [transactions_bridge link x rest hs, List.takeWhile_cons_of_neg (by simp [hs])]
        simp
      · have hs : HasPrefix x.UserID "@icb." = false := by simpa using hs
        rw [List.takeWhile_cons_of_pos (by simp [hs])]
        by_cases ht : x.EventType = "m.room.message"
        · rcases string_or_not (x.Content.at "body") with ⟨body, hb⟩ | hb
          · rw [transactions_message link x rest body hs ht hb]
            simp only [List.mem_cons, forall_eq_or_imp]
            rw [ih (fun i => link (i + 1))]
            exact ⟨fun h => ⟨fun _ => ⟨body, hb⟩, h⟩, fun h => h.2⟩
          · rw [transactions_badbody link x rest hs ht hb]
            simp only [List.mem_cons, forall_eq_or_imp]
            constructor
            · intro h; cases h
            · intro h
              obtain ⟨s, hs2⟩ := h.1 ht
              exact absurd hs2 (hb s)
        · rw [transactions_other link x rest hs ht]
          simp only [List.mem_cons, forall_eq_or_imp]
          rw [ih link]
          exact ⟨fun h => ⟨fun h2 => absurd h2 ht, h⟩, fun h => h.2⟩
  · intro link pre e post hpre hok hs ht hb
    rw [transactions_append pre (e :: post) link hpre hok, transactions_badbody _ e post hs ht hb]
    simp

/-- A panic on the second event of three, on the third write outcome of a
failing link. -/
theorem handler_safe_iff_bodies_are_strings_witness :
    (transactions linkSecondFails
        [sampleMessage "@alice:example.org" "one",
         sampleEvent "m.room.message" [("body", Value.null)] "@bob:example.org"]).2 ≠ none
    ∧ transactions linkSecondFails
        ([sampleMessage "@alice:example.org" "one", sampleMessage "@alice:example.org" "two"]
          ++ sampleEvent "m.room.message" [("body", Value.bool true)] "@bob:example.org"
            :: [sampleMessage "@alice:example.org" "three"])
      = ([Effect.write ["b", "one"], Effect.write ["b", "two"], Effect.log "broken pipe\n"],
          some Panic.interfaceConversion) := by
  refine ⟨?_, ?_⟩
  · rw [Ne, handler_safe_iff_bodies_are_strings.1]
    intro h
    obtain ⟨s, hs⟩ := h (sampleEvent "m.room.message" [("body", Value.null)] "@bob:example.org")
      (show _ ∈ [sampleMessage "@alice:example.org" "one",
        sampleEvent "m.room.message" [("body", Value.null)] "@bob:example.org"]
        from List.mem_cons_of_mem _ (List.mem_cons_self _ _)) rfl
    cases hs
  · rw [handler_safe_iff_bodies_are_strings.2.1 linkSecondFails
      [sampleMessage "@alice:example.org" "one", sampleMessage "@alice:example.org" "two"]
      (sampleEvent "m.room.message" [("body", Value.bool true)] "@bob:example.org")
      [sampleMessage "@alice:example.org" "three"] (by decide) (by decide) (by decide) rfl
      (fun s h => by cases h)]
    decide

end Icbridge
